import Mathlib

/-!
Verification development for the package-exports aggregator of the
`packages-dev` repository (`src/generate-package-exports/main.ts` together
with the helpers in `src/utils.ts`).

The TypeScript source is shallowly embedded: strings are Lean `String`s
(lists of characters), the filesystem is an explicit existence oracle
`String → Bool`, and each step of the aggregator pipeline (selector,
path rewriter, export emitter) becomes a pure Lean function translated
from the corresponding lines of the source.
-/

namespace PackagesDev

/-! ## The filename-to-identifier conversion `fmtu` (utils.ts, lines 13-15)

`fmtu` is `input.split(/[_-]/).map(part => part.charAt(0).toUpperCase() + part.slice(1)).join('')`.
The regex `[_-]` splits at every single underscore or dash (adjacent
separators yield empty parts, as in JavaScript's `String.prototype.split`).
-/

/-- A separator character of the splitting regex `[_-]`. -/
def is_sep (c : Char) : Bool := c = '_' || c = '-'

/-- Splitting a character list at every separator, keeping empty parts,
    as JavaScript's `split(/[_-]/)` does (`"".split` gives one empty part). -/
def split_parts : List Char → List (List Char)
  | [] => [[]]
  | c :: cs =>
    match split_parts cs with
    | [] => [[]]
    | p :: ps => if is_sep c then [] :: p :: ps else (c :: p) :: ps

/-- Capitalisation of one part: `part.charAt(0).toUpperCase() + part.slice(1)`,
    in the ASCII fragment (`Char.toUpper`).  This is exact on the basename
    domains quantified over below; JavaScript's `toUpperCase` additionally
    performs full Unicode case mapping, which lives in the Unicode
    Character Database, outside this repository's source. -/
def cap_part : List Char → List Char
  | [] => []
  | c :: cs => c.toUpper :: cs

/-- The `fmtu` helper of utils.ts: split on `_` and `-`, capitalise the
    first character of every part, and concatenate. -/
def fmtu (s : String) : String :=
  String.mk (((split_parts s.data).map cap_part).flatten)

/-! ## Character classes of the basename regex `[a-zA-Z][a-zA-Z0-9_-]*` -/

/-- An ASCII upper-case letter `A`-`Z`. -/
def is_upper_alpha (c : Char) : Bool := 65 ≤ c.toNat && c.toNat ≤ 90

/-- An ASCII letter, the class `[a-zA-Z]`. -/
def ascii_alpha (c : Char) : Bool :=
  (65 ≤ c.toNat && c.toNat ≤ 90) || (97 ≤ c.toNat && c.toNat ≤ 122)

/-- An ASCII digit, the class `[0-9]`. -/
def ascii_digit (c : Char) : Bool := 48 ≤ c.toNat && c.toNat ≤ 57

/-- A basename matching the regex `[a-zA-Z][a-zA-Z0-9_-]*`. -/
def valid_basename (s : String) : Bool :=
  match s.data with
  | [] => false
  | c :: cs => ascii_alpha c && cs.all (fun d => ascii_alpha d || ascii_digit d || d = '_' || d = '-')

/-- The `replaceAll` of main.ts line 153: every dash becomes an underscore. -/
def dash_to_underscore (s : String) : String :=
  String.mk (s.data.map (fun c => if c = '-' then '_' else c))

/-- The exported identifier derived for a component module
    (main.ts line 153): `fmtu(filename_base.replaceAll('-', '_'))`. -/
def named_export (s : String) : String := fmtu (dash_to_underscore s)

/-! ## Path primitives

The aggregator runs on POSIX-style paths: a path is a string whose
segments are separated by `/`.  The Node `path` functions the script uses
(`basename`, `extname`, `resolve`, `relative`, `join`) are embedded below
for the inputs the script feeds them: absolute directories without
trailing slashes and matcher results, which are plain relative paths.
-/

/-- Does the character list begin with the given pattern? -/
def list_starts : List Char → List Char → Bool
  | [], _ => true
  | _ :: _, [] => false
  | p :: ps, c :: cs => p == c && list_starts ps cs

/-- The `String.prototype.startsWith` test used by the script. -/
def starts_with (s pat : String) : Bool := list_starts pat.data s.data

/-- Characters strictly after the last `/`, or `none` when there is no `/`. -/
def after_slash : List Char → Option (List Char)
  | [] => none
  | c :: cs =>
    match after_slash cs with
    | some r => some r
    | none => if c = '/' then some cs else none

/-- Node's `path.basename` on slash-separated paths without trailing slash:
    the substring after the last `/`, or the whole string. -/
def basename (p : String) : String :=
  match after_slash p.data with
  | some r => String.mk r
  | none => p

/-- Characters of the extension (`'.'` and everything after the last `'.'`),
    or `none` when the list has no dot. -/
def ext_core : List Char → Option (List Char)
  | [] => none
  | c :: cs =>
    match ext_core cs with
    | some e => some e
    | none => if c = '.' then some ('.' :: cs) else none

/-- Node's `path.extname` on a basename: the suffix from the last dot,
    where a dot in first position does not start an extension (so a file
    literally named `.svelte` has extension `""`). -/
def extname (name : String) : String :=
  match name.data with
  | [] => ""
  | _ :: cs =>
    match ext_core cs with
    | some e => String.mk e
    | none => ""

/-- The slice `filename.slice(0, -ext.length)` of main.ts line 137:
    drops the last `ext.length` characters; JavaScript's `slice(0, -0)`
    yields the empty string when the extension is empty. -/
def strip_ext (filename ext : String) : String :=
  if ext.data.length = 0 then ""
  else String.mk (filename.data.take (filename.data.length - ext.data.length))

/-- The regex replacement `.replace(/\.(ts|svelte)$/i, '')` of main.ts
    line 140: strips one trailing `.ts` or `.svelte`, case-insensitively. -/
def strip_module_ext (p : String) : String :=
  if list_starts ".svelte".data.reverse ((p.data.map Char.toLower).reverse) then
    String.mk (p.data.take (p.data.length - 7))
  else if list_starts ".ts".data.reverse ((p.data.map Char.toLower).reverse) then
    String.mk (p.data.take (p.data.length - 3))
  else p

/-- Node's `path.join` on plain parts: interleave with `/`. -/
def path_join : List String → String
  | [] => ""
  | [p] => p
  | p :: ps => p ++ "/" ++ path_join ps

/-- Splitting a character list at every slash, keeping empty pieces. -/
def split_on_slash : List Char → List (List Char)
  | [] => [[]]
  | c :: cs =>
    match split_on_slash cs with
    | [] => [[]]
    | p :: ps => if c = '/' then [] :: p :: ps else (c :: p) :: ps

/-- The non-empty `/`-separated segments of a path. -/
def split_segs (p : String) : List (List Char) :=
  (split_on_slash p.data).filter (fun seg => seg ≠ [])

/-- Drops the longest common leading run of segments from both lists. -/
def drop_common : List (List Char) → List (List Char) → List (List Char) × List (List Char)
  | a :: as, b :: bs => if a = b then drop_common as bs else (a :: as, b :: bs)
  | as, bs => (as, bs)

/-- Node's `path.relative` between two absolute POSIX paths: after removing
    the common prefix of segments, one `..` per remaining segment of the
    source followed by the remaining segments of the target. -/
def path_relative (src dst : String) : String :=
  let p := drop_common (split_segs src) (split_segs dst)
  path_join (p.1.map (fun _ => "..") ++ p.2.map String.mk)

/-- The `to_posix` helper of main.ts line 89: backslashes become slashes. -/
def to_posix (p : String) : String :=
  String.mk (p.data.map (fun c => if c = '\\' then '/' else c))

/-- The path-rewriting step of main.ts lines 143-146: the posix-normalised
    relative path from the output directory, with `./` prepended when the
    result starts with neither `.` nor `/`. -/
def rel_import (out_path abs_no_ext : String) : String :=
  let r := to_posix (path_relative out_path abs_no_ext)
  if !(starts_with r ".") && !(starts_with r "/") then "./" ++ r else r

/-! ## The per-file pipeline (main.ts lines 131-156) -/

/-- The configuration a run of the aggregator threads through the loop:
    the resolved scan directory, the resolved output directory and the
    `is_module` switch. -/
structure GenConfig where
  base_path : String
  out_path : String
  is_module : Bool

/-- One iteration of the `for (const rel_file of files)` loop of main.ts
    lines 131-156: returns the export lines pushed for this file (empty for
    a skipped or unrecognised file, a single line otherwise). -/
def process_file (cfg : GenConfig) (rel_file : String) : List String :=
  let filename := basename rel_file
  if starts_with filename "_" then []
  else
    let ext := extname filename
    let filename_base := strip_ext filename ext
    let abs_no_ext := strip_module_ext (cfg.base_path ++ "/" ++ rel_file)
    let rel_from_out := rel_import cfg.out_path abs_no_ext
    if ext = ".ts" then
      ["export * from \"" ++ rel_from_out ++ (if cfg.is_module then ".js" else "") ++ "\""]
    else if ext = ".svelte" then
      ["export \x7b default as " ++ named_export filename_base ++ " \x7d from \"" ++
        rel_from_out ++ "\""]
    else []

/-- The whole loop: the `package_files` array after every matched file has
    been processed (before the final sort and write). -/
def package_lines (cfg : GenConfig) (files : List String) : List String :=
  files.foldl (fun acc f => acc ++ process_file cfg f) []

/-! ## Pattern-list resolution (main.ts lines 98-116) -/

/-- The effective include-pattern list of main.ts line 98:
    `argv.types_only ? ['**/types.ts'] : argv.include_glob`. -/
def effective_include (types_only : Bool) (include_glob : List String) : List String :=
  if types_only then ["**/types.ts"] else include_glob

/-- The wildcard test of main.ts line 110:
    `d.includes('*') || d.includes('?') || d.includes('[')`. -/
def has_wildcard (d : String) : Bool :=
  d.data.contains '*' || d.data.contains '?' || d.data.contains '['

/-- The exclusion glob pushed for one `dir_skip` entry (main.ts lines 110-114). -/
def skip_glob (d : String) : String :=
  if has_wildcard d then d else "**/" ++ d ++ "/**"

/-- The effective ignore-pattern list of main.ts lines 100-116: the
    configured `ignore_glob`, then `'**/bin/**'` unless `include_bin`,
    then one pushed glob per `dir_skip` entry. -/
def effective_ignore (ignore_glob : List String) (include_bin : Bool)
    (dir_skip : List String) : List String :=
  let ig := ignore_glob
  let ig := if include_bin then ig else ig ++ ["**/bin/**"]
  dir_skip.foldl (fun acc d => acc ++ [skip_glob d]) ig

/-- The effective exclude-pattern list exactly as the specification words
    it in section 4.1 step 2: `config.exclude_patterns`, plus `'**/bin/**'`
    appended when `include_bin` is false, plus one exclusion-glob per entry
    in `skip_dirs` (verbatim when the entry contains wildcard syntax,
    otherwise expanded to `'**/<entry>/**'`). -/
def effective_exclude_spec (exclude_patterns : List String) (include_bin : Bool)
    (skip_dirs : List String) : List String :=
  exclude_patterns ++ (if include_bin then [] else ["**/bin/**"]) ++
    skip_dirs.map (fun d => if has_wildcard d then d else "**/" ++ d ++ "/**")

/-- Modelled from the spec: the external pattern matcher of section 6,
    restricted to the single include pattern `**/types.ts` (the matcher
    itself is the out-of-scope fast-glob dependency).  Under that pattern it
    selects exactly the relative paths whose final segment is `types.ts`. -/
def match_types_only (files : List String) : List String :=
  files.filter (fun f => basename f == "types.ts")

/-! ## Filesystem primitives (utils.ts lines 9-11 and 21-25)

The filesystem is embedded as an existence oracle `String → Bool` for
`existsSync` and as a partial map `String → Option String` of file
contents for write effects.
-/

/-- The `paths_assert` helper of utils.ts lines 21-25: join the parts and
    fail with `Path not found` unless the joined path exists. -/
def paths_assert (ex : String → Bool) (parts : List String) : Except String String :=
  let path := path_join parts
  if ex path then Except.ok path else Except.error ("Path not found: " ++ path)

/-- The resolution of the output file path at main.ts line 95:
    `paths_assert(out_path, 'index.ts')`. -/
def resolve_export_path (ex : String → Bool) (out_path : String) : Except String String :=
  paths_assert ex [out_path, "index.ts"]

/-- The `fs_write` helper of utils.ts lines 9-11, i.e. Node's
    `writeFileSync`: the path is created or truncated to exactly the new
    contents, every other path is untouched. -/
def fs_write (fs : String → Option String) (path contents : String) :
    String → Option String :=
  fun p => if p = path then some contents else fs p

/-! ## Generic helpers about characters and strings -/

/-- Comparison of `UInt32` values is comparison of their `Nat` images. -/
theorem uint32_le_iff {a b : UInt32} : a ≤ b ↔ a.toNat ≤ b.toNat := by
  rw [UInt32.le_def, BitVec.le_def]
  exact Iff.rfl

/-- Packing a scalar value below the surrogate range and reading it back is the identity. -/
theorem char_ofNat_toNat {n : Nat} (h : n < 55296) : (Char.ofNat n).toNat = n := by
  have hv : Nat.isValidChar n := Or.inl h
  unfold Char.ofNat
  rw [dif_pos hv]
  unfold Char.ofNatAux
  simp [Char.toNat, UInt32.toNat]

/-- The numeric effect of `Char.toUpper`. -/
theorem toUpper_toNat (c : Char) :
    c.toUpper.toNat = if 97 ≤ c.toNat ∧ c.toNat ≤ 122 then c.toNat - 32 else c.toNat := by
  unfold Char.toUpper
  split
  · next h =>
    rw [if_pos ⟨h.1, h.2⟩]
    exact char_ofNat_toNat (by omega)
  · next h =>
    rw [if_neg (by omega)]

/-- Characters agree when their `Nat` images agree. -/
theorem char_eq_of_toNat_eq {c d : Char} (h : c.toNat = d.toNat) : c = d :=
  Char.eq_of_val_eq (UInt32.toNat.inj h)

/-- Upper-casing twice is the same as upper-casing once. -/
theorem toUpper_idem (c : Char) : c.toUpper.toUpper = c.toUpper := by
  apply char_eq_of_toNat_eq
  rw [toUpper_toNat, toUpper_toNat c]
  by_cases h : 97 ≤ c.toNat ∧ c.toNat ≤ 122
  · rw [if_pos h, if_neg (by omega)]
  · rw [if_neg h, if_neg h]

/-- Appending strings appends their character lists. -/
theorem str_data_append (s t : String) : (s ++ t).data = s.data ++ t.data := by
  cases s
  cases t
  rfl

/-- Strings with the same character list are equal. -/
theorem str_eq_of_data_eq {s t : String} (h : s.data = t.data) : s = t := by
  cases s
  cases t
  exact congrArg String.mk h

/-- Rebuilding a string from its character list is the identity. -/
theorem mk_data (s : String) : String.mk s.data = s := by
  cases s
  rfl

/-! ## Lemmas about `fmtu` -/

/-- Splitting never produces an empty list of parts. -/
theorem split_parts_ne_nil (cs : List Char) : split_parts cs ≠ [] := by
  cases cs with
  | nil => simp [split_parts]
  | cons c cs =>
    unfold split_parts
    cases h : split_parts cs with
    | nil => simp
    | cons p ps => by_cases hs : is_sep c <;> simp [hs]

/-- Every character inside a part produced by `split_parts` is a non-separator. -/
theorem split_parts_no_sep {cs : List Char} {p : List Char} (hp : p ∈ split_parts cs)
    {c : Char} (hc : c ∈ p) : is_sep c = false := by
  induction cs generalizing p with
  | nil =>
    simp [split_parts] at hp
    subst hp
    simp at hc
  | cons d ds ih =>
    cases h : split_parts ds with
    | nil => exact absurd h (split_parts_ne_nil ds)
    | cons q qs =>
      by_cases hs : is_sep d
      · rw [show split_parts (d :: ds) = [] :: q :: qs by simp [split_parts, h, hs]] at hp
        rcases List.mem_cons.mp hp with h1 | h2
        · subst h1
          simp at hc
        · exact ih (by rw [h]; exact h2) hc
      · rw [show split_parts (d :: ds) = (d :: q) :: qs by simp [split_parts, h, hs]] at hp
        rcases List.mem_cons.mp hp with h1 | h2
        · subst h1
          rcases List.mem_cons.mp hc with h3 | h4
          · subst h3
            simpa using hs
          · exact ih (by rw [h]; exact List.mem_cons_self q qs) h4
        · exact ih (by rw [h]; exact List.mem_cons.mpr (Or.inr h2)) hc

/-- A character whose code is neither 95 nor 45 is not a separator. -/
theorem is_sep_eq_false_of_toNat (c : Char) (h1 : c.toNat ≠ 95) (h2 : c.toNat ≠ 45) :
    is_sep c = false := by
  unfold is_sep
  have e1 : c ≠ '_' := fun he => h1 (by rw [he]; decide)
  have e2 : c ≠ '-' := fun he => h2 (by rw [he]; decide)
  simp [e1, e2]

/-- A character outside the lower-case range is left unchanged by `Char.toUpper`. -/
theorem toUpper_eq_self_of_not_lower {c : Char} (h : ¬(97 ≤ c.toNat ∧ c.toNat ≤ 122)) :
    c.toUpper = c :=
  char_eq_of_toNat_eq (by rw [toUpper_toNat, if_neg h])

/-- Upper-casing does not turn a character into a separator or back. -/
theorem is_sep_toUpper (c : Char) : is_sep c.toUpper = is_sep c := by
  by_cases h : 97 ≤ c.toNat ∧ c.toNat ≤ 122
  · have h1 : c.toUpper.toNat = c.toNat - 32 := by rw [toUpper_toNat, if_pos h]
    rw [is_sep_eq_false_of_toNat c.toUpper (by omega) (by omega)]
    rw [is_sep_eq_false_of_toNat c (by omega) (by omega)]
  · rw [toUpper_eq_self_of_not_lower h]

/-- Every character of an `fmtu` result is a non-separator. -/
theorem fmtu_no_sep (s : String) {c : Char} (hc : c ∈ (fmtu s).data) : is_sep c = false := by
  unfold fmtu at hc
  simp only [String.data] at hc
  rw [List.mem_flatten] at hc
  obtain ⟨l, hl, hcl⟩ := hc
  rw [List.mem_map] at hl
  obtain ⟨p, hp, hpl⟩ := hl
  subst hpl
  cases p with
  | nil => simp [cap_part] at hcl
  | cons d ds =>
    simp only [cap_part] at hcl
    rcases List.mem_cons.mp hcl with h1 | h2
    · subst h1
      rw [is_sep_toUpper]
      exact split_parts_no_sep hp (List.mem_cons_self d ds)
    · exact split_parts_no_sep hp (List.mem_cons.mpr (Or.inr h2))

/-- A separator-free character list splits into exactly itself. -/
theorem split_parts_of_no_sep {cs : List Char} (h : ∀ c ∈ cs, is_sep c = false) :
    split_parts cs = [cs] := by
  induction cs with
  | nil => rfl
  | cons c cs ih =>
    have hcs := ih (fun d hd => h d (List.mem_cons.mpr (Or.inr hd)))
    have hc : is_sep c = false := h c (List.mem_cons_self c cs)
    simp [split_parts, hcs, hc]

/-- Capitalising an already-capitalised concatenation changes nothing. -/
theorem cap_part_flatten_caps (parts : List (List Char)) :
    cap_part ((parts.map cap_part).flatten) = (parts.map cap_part).flatten := by
  induction parts with
  | nil => rfl
  | cons p ps ih =>
    cases p with
    | nil => simpa [cap_part] using ih
    | cons c cs => simp [cap_part, toUpper_idem]

/-- The first character of an `fmtu` result of a non-separator-headed list is upper-cased. -/
theorem fmtu_head (c : Char) (cs : List Char) (h : is_sep c = false) :
    ∃ ds, (fmtu (String.mk (c :: cs))).data = c.toUpper :: ds := by
  cases hq : split_parts cs with
  | nil => exact absurd hq (split_parts_ne_nil cs)
  | cons q qs =>
    refine ⟨q ++ ((qs.map cap_part).flatten), ?_⟩
    unfold fmtu
    simp [split_parts, hq, h, cap_part]

/-- An ASCII letter is not a separator character. -/
theorem ascii_alpha_not_sep {c : Char} (h : ascii_alpha c = true) : is_sep c = false := by
  unfold ascii_alpha at h
  rw [Bool.or_eq_true, Bool.and_eq_true, Bool.and_eq_true] at h
  simp only [decide_eq_true_eq] at h
  exact is_sep_eq_false_of_toNat c (by omega) (by omega)

/-- Upper-casing an ASCII letter yields an upper-case letter. -/
theorem ascii_alpha_toUpper {c : Char} (h : ascii_alpha c = true) :
    is_upper_alpha c.toUpper = true := by
  unfold ascii_alpha at h
  rw [Bool.or_eq_true, Bool.and_eq_true, Bool.and_eq_true] at h
  simp only [decide_eq_true_eq] at h
  unfold is_upper_alpha
  rw [Bool.and_eq_true]
  simp only [decide_eq_true_eq]
  rw [toUpper_toNat]
  by_cases hl : 97 ≤ c.toNat ∧ c.toNat ≤ 122
  · rw [if_pos hl]
    omega
  · rw [if_neg hl]
    omega

/-- Claim C5: for every component-module basename matching
    `[a-zA-Z][a-zA-Z0-9_-]*`, the derived exported identifier (splitting on
    `-` and `_`, upper-casing each segment head, concatenating) contains no
    `-` or `_` characters and begins with an upper-case letter; for example
    `user-card` becomes `UserCard`. -/
theorem C5_named_export_valid :
    (∀ s : String, valid_basename s = true →
      ((named_export s).data.all (fun c => !is_sep c)) = true ∧
      ∃ c cs, (named_export s).data = c :: cs ∧ is_upper_alpha c = true) ∧
    named_export "user-card" = "UserCard" := by
  constructor
  · intro s hs
    constructor
    · rw [List.all_eq_true]
      intro c hc
      rw [fmtu_no_sep _ hc]
      rfl
    · unfold valid_basename at hs
      cases hd : s.data with
      | nil => rw [hd] at hs; simp at hs
      | cons c cs =>
        rw [hd] at hs
        rw [Bool.and_eq_true] at hs
        have halpha : ascii_alpha c = true := hs.1
        have hnd : c ≠ '-' := by
          intro he
          subst he
          unfold ascii_alpha at halpha
          simp at halpha
        unfold named_export dash_to_underscore
        rw [hd]
        simp only [List.map_cons, if_neg hnd]
        obtain ⟨ds, hds⟩ :=
          fmtu_head c (cs.map (fun c => if c = '-' then '_' else c))
            (ascii_alpha_not_sep halpha)
        exact ⟨c.toUpper, ds, hds, ascii_alpha_toUpper halpha⟩
  · decide

/-- Witness for claim C5 at the spec's own example `user-card`. -/
theorem C5_named_export_valid_witness :
    valid_basename "user-card" = true ∧
    (((named_export "user-card").data.all (fun c => !is_sep c)) = true ∧
      ∃ c cs, (named_export "user-card").data = c :: cs ∧ is_upper_alpha c = true) :=
  ⟨by decide, C5_named_export_valid.1 "user-card" (by decide)⟩

/-! ## Lemmas about the path primitives and the per-file pipeline -/

/-- A list starts with itself followed by anything. -/
theorem list_starts_append_self (pat r : List Char) : list_starts pat (pat ++ r) = true := by
  induction pat with
  | nil => rfl
  | cons p ps ih => simp [list_starts, ih]

/-- A slash-free character list has nothing after a last slash. -/
theorem after_slash_none {cs : List Char} (h : ∀ c ∈ cs, c ≠ '/') : after_slash cs = none := by
  induction cs with
  | nil => rfl
  | cons c cs ih =>
    unfold after_slash
    rw [ih (fun d hd => h d (List.mem_cons.mpr (Or.inr hd)))]
    simp [h c (List.mem_cons_self c cs)]

/-- A slash-free path is its own basename. -/
theorem basename_id {s : String} (h : ∀ c ∈ s.data, c ≠ '/') : basename s = s := by
  unfold basename
  rw [after_slash_none h]

/-- A dot-free character list carries no extension. -/
theorem ext_core_none {suf : List Char} (h : '.' ∉ suf) : ext_core suf = none := by
  induction suf with
  | nil => rfl
  | cons c cs ih =>
    have hc : c ≠ '.' := fun he => h (by rw [he]; exact List.mem_cons_self '.' cs)
    unfold ext_core
    rw [ih (fun hmem => h (List.mem_cons.mpr (Or.inr hmem)))]
    simp [hc]

/-- The extension search finds a final dot-free suffix. -/
theorem ext_core_append (cs : List Char) {suf : List Char} (h : '.' ∉ suf) :
    ext_core (cs ++ '.' :: suf) = some ('.' :: suf) := by
  induction cs with
  | nil =>
    show ext_core ('.' :: suf) = _
    unfold ext_core
    rw [ext_core_none h]
    simp
  | cons c cs ih =>
    show ext_core (c :: (cs ++ '.' :: suf)) = _
    unfold ext_core
    rw [ih]

/-- `extname` of a non-empty name with an appended dot-free extension. -/
theorem extname_append {b : String} (hb : b.data ≠ []) {suf : List Char} (hd : '.' ∉ suf) :
    extname (String.mk (b.data ++ '.' :: suf)) = String.mk ('.' :: suf) := by
  cases hbd : b.data with
  | nil => exact absurd hbd hb
  | cons c cs =>
    show (match ext_core (cs ++ '.' :: suf) with
          | some e => String.mk e
          | none => "") = String.mk ('.' :: suf)
    rw [ext_core_append cs hd]

/-- Appending `.ts` to a non-empty slash-free name yields extension `.ts`. -/
theorem extname_ts {b : String} (hb : b.data ≠ []) : extname (b ++ ".ts") = ".ts" := by
  have h : b ++ ".ts" = String.mk (b.data ++ '.' :: ['t', 's']) := by
    apply str_eq_of_data_eq
    rw [str_data_append]
  rw [h, extname_append hb (by decide)]

/-- Appending `.svelte` to a non-empty name yields extension `.svelte`. -/
theorem extname_svelte {b : String} (hb : b.data ≠ []) :
    extname (b ++ ".svelte") = ".svelte" := by
  have h : b ++ ".svelte" = String.mk (b.data ++ '.' :: ['s', 'v', 'e', 'l', 't', 'e']) := by
    apply str_eq_of_data_eq
    rw [str_data_append]
  rw [h, extname_append hb (by decide)]

/-- Slicing an appended extension off recovers the base. -/
theorem strip_ext_append (b ext : String) (h : ext.data.length ≠ 0) :
    strip_ext (b ++ ext) ext = b := by
  unfold strip_ext
  rw [if_neg h, str_data_append, List.length_append]
  have hl : b.data.length + ext.data.length - ext.data.length = b.data.length := by omega
  rw [hl, List.take_left' rfl, mk_data]

/-- Lower-casing the characters of `.ts` changes nothing. -/
theorem map_toLower_ts : List.map Char.toLower ('.' :: ['t', 's']) = '.' :: ['t', 's'] := by
  decide

/-- Lower-casing the characters of `.svelte` changes nothing. -/
theorem map_toLower_svelte :
    List.map Char.toLower ('.' :: ['s', 'v', 'e', 'l', 't', 'e']) =
      '.' :: ['s', 'v', 'e', 'l', 't', 'e'] := by
  decide

/-- The regex of main.ts line 140 strips a literal `.ts` suffix. -/
theorem strip_module_ext_ts (q : String) : strip_module_ext (q ++ ".ts") = q := by
  have h1 : ((q ++ ".ts").data.map Char.toLower).reverse
      = 's' :: 't' :: '.' :: (q.data.map Char.toLower).reverse := by
    rw [str_data_append, show (".ts" : String).data = '.' :: ['t', 's'] from rfl,
      List.map_append, List.reverse_append, map_toLower_ts]
    rfl
  unfold strip_module_ext
  rw [h1]
  rw [show list_starts (".svelte" : String).data.reverse
      ('s' :: 't' :: '.' :: (q.data.map Char.toLower).reverse) = false from rfl]
  rw [show (list_starts (".ts" : String).data.reverse
      ('s' :: 't' :: '.' :: (q.data.map Char.toLower).reverse)) = true by
    simp [list_starts]]
  simp only [Bool.false_eq_true, if_false, if_true]
  rw [str_data_append, List.length_append]
  have hl : q.data.length + (".ts" : String).data.length - 3 = q.data.length := by
    rw [show (".ts" : String).data.length = 3 from rfl]
    omega
  rw [hl, List.take_left' rfl, mk_data]

/-- The regex of main.ts line 140 strips a literal `.svelte` suffix. -/
theorem strip_module_ext_svelte (q : String) : strip_module_ext (q ++ ".svelte") = q := by
  have h1 : ((q ++ ".svelte").data.map Char.toLower).reverse
      = 'e' :: 't' :: 'l' :: 'e' :: 'v' :: 's' :: '.' :: (q.data.map Char.toLower).reverse := by
    rw [str_data_append,
      show (".svelte" : String).data = '.' :: ['s', 'v', 'e', 'l', 't', 'e'] from rfl,
      List.map_append, List.reverse_append, map_toLower_svelte]
    rfl
  unfold strip_module_ext
  rw [h1]
  rw [show (list_starts (".svelte" : String).data.reverse
      ('e' :: 't' :: 'l' :: 'e' :: 'v' :: 's' :: '.' :: (q.data.map Char.toLower).reverse))
      = true by simp [list_starts]]
  simp only [if_true]
  rw [str_data_append, List.length_append]
  have hl : q.data.length + (".svelte" : String).data.length - 7 = q.data.length := by
    rw [show (".svelte" : String).data.length = 7 from rfl]
    omega
  rw [hl, List.take_left' rfl, mk_data]

/-- String append is associative. -/
theorem str_append_assoc (a b c : String) : a ++ b ++ c = a ++ (b ++ c) := by
  apply str_eq_of_data_eq
  rw [str_data_append, str_data_append, str_data_append, str_data_append, List.append_assoc]

/-- A one-character pattern only looks at the head. -/
theorem starts_with_single {b : String} {c : Char} {cs : List Char} (hb : b.data = c :: cs)
    (t : String) (p : Char) :
    starts_with (b ++ t) (String.mk [p]) = starts_with b (String.mk [p]) := by
  unfold starts_with
  rw [str_data_append, hb]
  show list_starts [p] (c :: (cs ++ t.data)) = list_starts [p] (c :: cs)
  simp [list_starts]

/-- Characters of `.ts` are not slashes. -/
theorem ts_chars_no_slash : ∀ d ∈ (".ts" : String).data, d ≠ '/' := by
  decide

/-- Characters of `.svelte` are not slashes. -/
theorem svelte_chars_no_slash : ∀ d ∈ (".svelte" : String).data, d ≠ '/' := by
  decide

/-- A slash-free basename stays slash-free after appending a slash-free extension. -/
theorem no_slash_append {b t : String} (hb : ∀ d ∈ b.data, d ≠ '/')
    (ht : ∀ d ∈ t.data, d ≠ '/') : ∀ d ∈ (b ++ t).data, d ≠ '/' := by
  intro d hd
  rw [str_data_append] at hd
  rcases List.mem_append.mp hd with h | h
  · exact hb d h
  · exact ht d h

/-- The underscore guard of main.ts line 134 applied to a name with a known head. -/
theorem starts_with_underscore_eq {b : String} {c : Char} {cs : List Char}
    (hb : b.data = c :: cs) (t : String) :
    starts_with (b ++ t) "_" = (('_' : Char) == c) := by
  unfold starts_with
  rw [str_data_append, hb]
  show list_starts ['_'] (c :: (cs ++ t.data)) = (('_' : Char) == c)
  simp [list_starts]

/-- Processing a plain-module candidate `<b>.ts` whose basename `b` is
    non-empty, slash-free and not underscore-prefixed: exactly the wildcard
    export line of main.ts line 150 is pushed. -/
theorem process_file_ts (cfg : GenConfig) {b : String} {c : Char} {cs : List Char}
    (hb : b.data = c :: cs) (hsl : ∀ d ∈ b.data, d ≠ '/') (hus : c ≠ '_') :
    process_file cfg (b ++ ".ts") =
      ["export * from \"" ++ rel_import cfg.out_path (cfg.base_path ++ "/" ++ b) ++
        (if cfg.is_module then ".js" else "") ++ "\""] := by
  have hbase : basename (b ++ ".ts") = b ++ ".ts" :=
    basename_id (no_slash_append hsl ts_chars_no_slash)
  have hunder : starts_with (b ++ ".ts") "_" = false := by
    rw [starts_with_underscore_eq hb]
    exact beq_eq_false_iff_ne.mpr (fun h => hus h.symm)
  have hext : extname (b ++ ".ts") = ".ts" := extname_ts (by rw [hb]; simp)
  have hassoc : cfg.base_path ++ "/" ++ (b ++ ".ts") = cfg.base_path ++ "/" ++ b ++ ".ts" :=
    (str_append_assoc (cfg.base_path ++ "/") b ".ts").symm
  simp only [process_file, hbase, hunder, hext, hassoc, strip_module_ext_ts,
    Bool.false_eq_true, if_false, reduceCtorEq, ite_true, ite_false, if_pos rfl]

/-- Processing a component-module candidate `<b>.svelte` whose basename `b`
    is non-empty, slash-free and not underscore-prefixed: exactly the named
    default re-export line of main.ts line 154 is pushed, with no
    module-resolution suffix. -/
theorem process_file_svelte (cfg : GenConfig) {b : String} {c : Char} {cs : List Char}
    (hb : b.data = c :: cs) (hsl : ∀ d ∈ b.data, d ≠ '/') (hus : c ≠ '_') :
    process_file cfg (b ++ ".svelte") =
      ["export \x7b default as " ++ named_export b ++ " \x7d from \"" ++
        rel_import cfg.out_path (cfg.base_path ++ "/" ++ b) ++ "\""] := by
  have hbase : basename (b ++ ".svelte") = b ++ ".svelte" :=
    basename_id (no_slash_append hsl svelte_chars_no_slash)
  have hunder : starts_with (b ++ ".svelte") "_" = false := by
    rw [starts_with_underscore_eq hb]
    exact beq_eq_false_iff_ne.mpr (fun h => hus h.symm)
  have hext : extname (b ++ ".svelte") = ".svelte" := extname_svelte (by rw [hb]; simp)
  have hstrip : strip_ext (b ++ ".svelte") ".svelte" = b :=
    strip_ext_append b ".svelte" (by decide)
  have hassoc : cfg.base_path ++ "/" ++ (b ++ ".svelte")
      = cfg.base_path ++ "/" ++ b ++ ".svelte" :=
    (str_append_assoc (cfg.base_path ++ "/") b ".svelte").symm
  have hne : (".svelte" : String) ≠ ".ts" := by decide
  simp only [process_file, hbase, hunder, hext, hstrip, hassoc, strip_module_ext_svelte,
    Bool.false_eq_true, if_false, if_neg hne, if_pos rfl, eq_self_iff_true, if_true]

/-- Claim C9: for every plain-module (`.ts`) candidate the emitted line is
    `export * from "<import_specifier><suffix>"` where the suffix `.js` is
    appended exactly when `is_module` is true and is empty otherwise, while
    component-module (`.svelte`) lines never carry the suffix (their line is
    the same string for either value of `is_module`). -/
theorem C9_module_suffix_rule (cfg : GenConfig) {b : String} {c : Char} {cs : List Char}
    (hb : b.data = c :: cs) (hsl : ∀ d ∈ b.data, d ≠ '/') (hus : c ≠ '_') :
    process_file cfg (b ++ ".ts") =
      ["export * from \"" ++ rel_import cfg.out_path (cfg.base_path ++ "/" ++ b) ++
        (if cfg.is_module then ".js" else "") ++ "\""] ∧
    process_file cfg (b ++ ".svelte") =
      ["export \x7b default as " ++ named_export b ++ " \x7d from \"" ++
        rel_import cfg.out_path (cfg.base_path ++ "/" ++ b) ++ "\""] :=
  ⟨process_file_ts cfg hb hsl hus, process_file_svelte cfg hb hsl hus⟩

/-- Witness for claim C9 at the basename `card` with `is_module` set. -/
theorem C9_module_suffix_rule_witness :
    ("card" : String).data = 'c' :: ['a', 'r', 'd'] ∧
    (∀ d ∈ ("card" : String).data, d ≠ '/') ∧
    'c' ≠ '_' ∧
    (process_file ⟨"/p/src", "/p/out", true⟩ ("card" ++ ".ts") =
      ["export * from \"" ++ rel_import "/p/out" ("/p/src" ++ "/" ++ "card") ++
        (if true then ".js" else "") ++ "\""] ∧
    process_file ⟨"/p/src", "/p/out", true⟩ ("card" ++ ".svelte") =
      ["export \x7b default as " ++ named_export "card" ++ " \x7d from \"" ++
        rel_import "/p/out" ("/p/src" ++ "/" ++ "card") ++ "\""]) :=
  ⟨rfl, by decide, by decide,
    C9_module_suffix_rule ⟨"/p/src", "/p/out", true⟩ rfl (by decide) (by decide)⟩

/-- Claim C1 counterexample: on the component-module candidate `3d.svelte`,
    whose basename starts with a digit, the run does not abort and no
    `NamingError` is raised; the emitter pushes an export line whose
    identifier `3d` begins with the digit. -/
theorem C1_counterexample :
    process_file ⟨"/p/src", "/p/src", true⟩ "3d.svelte"
      = ["export \x7b default as 3d \x7d from \"./3d\""] ∧
    ascii_digit '3' = true ∧
    named_export "3d" = "3d" := by
  refine ⟨by decide, by decide, by decide⟩

/-- Claim C1 as amended: the emitter never fails on a component-module
    candidate: every `.svelte` candidate with a non-empty, slash-free,
    non-underscore-prefixed basename yields exactly one export line, even
    when the basename starts with a digit (the derived identifier then
    starts with that digit and is not a valid identifier); no `NamingError`
    exists in the code.  For basenames matching `[a-zA-Z][a-zA-Z0-9_-]*`
    the derived identifier is syntactically valid. -/
theorem C1_svelte_never_fails (cfg : GenConfig) {b : String} {c : Char} {cs : List Char}
    (hb : b.data = c :: cs) (hsl : ∀ d ∈ b.data, d ≠ '/') (hus : c ≠ '_') :
    (process_file cfg (b ++ ".svelte")).length = 1 ∧
    (is_sep c = false →
      ∃ ds, (named_export b).data = c.toUpper :: ds) := by
  constructor
  · rw [process_file_svelte cfg hb hsl hus]
    rfl
  · intro hcs
    have hnd : c ≠ '-' := by
      intro he
      subst he
      simp [is_sep] at hcs
    unfold named_export dash_to_underscore
    rw [hb]
    simp only [List.map_cons, if_neg hnd]
    exact fmtu_head c (cs.map (fun d => if d = '-' then '_' else d)) hcs

/-- Witness for claim C1 at the digit-leading basename `3d`. -/
theorem C1_svelte_never_fails_witness :
    ("3d" : String).data = '3' :: ['d'] ∧
    (∀ d ∈ ("3d" : String).data, d ≠ '/') ∧
    '3' ≠ '_' ∧
    ((process_file ⟨"/p/src", "/p/src", true⟩ ("3d" ++ ".svelte")).length = 1 ∧
      (is_sep '3' = false → ∃ ds, (named_export "3d").data = '3'.toUpper :: ds)) :=
  ⟨rfl, by decide, by decide,
    C1_svelte_never_fails ⟨"/p/src", "/p/src", true⟩ rfl (by decide) (by decide)⟩

/-- Claim C4 counterexample: with scan directory `/p/src` and output
    directory `/p/src/a/b`, the candidate `a.ts` has relative path `..`
    from the output directory; the rewriter leaves it unchanged, so the
    emitted specifier begins with neither `./` nor `../`. -/
theorem C4_counterexample :
    rel_import "/p/src/a/b" "/p/src/a" = ".." ∧
    starts_with ".." "./" = false ∧
    starts_with ".." "../" = false ∧
    process_file ⟨"/p/src", "/p/src/a/b", true⟩ "a.ts" = ["export * from \"...js\""] := by
  refine ⟨by decide, by decide, by decide, by decide⟩

/-- Claim C4 as amended: the rewriter output always begins with `.` or `/`,
    and `./` is prepended exactly when the relative path from the output
    directory begins with neither `.` nor `/`; but when that relative path
    already begins with `.` without being `./`- or `../`-shaped (for
    example when it is exactly `..`), it is kept verbatim, so the output
    need not begin with `./` or `../`. -/
theorem C4_rewriter_output_shape (out_path abs_no_ext : String) :
    (starts_with (rel_import out_path abs_no_ext) "." ||
      starts_with (rel_import out_path abs_no_ext) "/") = true ∧
    (starts_with (to_posix (path_relative out_path abs_no_ext)) "." = false →
      starts_with (to_posix (path_relative out_path abs_no_ext)) "/" = false →
      rel_import out_path abs_no_ext
        = "./" ++ to_posix (path_relative out_path abs_no_ext)) := by
  constructor
  · unfold rel_import
    by_cases h1 : starts_with (to_posix (path_relative out_path abs_no_ext)) "."
    · rw [if_neg (by simp [h1])]
      simp [h1]
    · by_cases h2 : starts_with (to_posix (path_relative out_path abs_no_ext)) "/"
      · rw [if_neg (by simp [h2])]
        simp [h2]
      · rw [if_pos (by simp [h1, h2])]
        rw [Bool.or_eq_true]
        left
        unfold starts_with
        rw [str_data_append]
        show list_starts ['.']
          ('.' :: ('/' :: (to_posix (path_relative out_path abs_no_ext)).data)) = true
        simp [list_starts]
  · intro h1 h2
    unfold rel_import
    rw [if_pos (by simp [h1, h2])]

/-- Witness for claim C4: with the file one directory below the output
    directory the relative path is bare, and `./` is prepended. -/
theorem C4_rewriter_output_shape_witness :
    starts_with (to_posix (path_relative "/a" "/a/b")) "." = false ∧
    starts_with (to_posix (path_relative "/a" "/a/b")) "/" = false ∧
    rel_import "/a" "/a/b" = "./" ++ to_posix (path_relative "/a" "/a/b") :=
  ⟨by decide, by decide,
    (C4_rewriter_output_shape "/a" "/a/b").2 (by decide) (by decide)⟩

/-- Pulling the accumulator out of the export-line fold. -/
theorem package_lines_foldl (cfg : GenConfig) (files : List String) (acc : List String) :
    files.foldl (fun a f => a ++ process_file cfg f) acc
      = acc ++ files.foldl (fun a f => a ++ process_file cfg f) [] := by
  induction files generalizing acc with
  | nil => simp
  | cons f fs ih =>
    simp only [List.foldl_cons]
    rw [ih (acc ++ process_file cfg f), ih (List.nil ++ process_file cfg f)]
    simp [List.append_assoc]

/-- The guard of main.ts line 134 drops underscore-prefixed filenames. -/
theorem process_file_underscore (cfg : GenConfig) {f : String}
    (h : starts_with (basename f) "_" = true) : process_file cfg f = [] := by
  simp [process_file, h]

/-- Claim C6: every matcher result whose filename (final path segment)
    begins with an underscore is dropped by the residual safety filter,
    independently of any exclude patterns: the produced export lines are
    those of the underscore-free results alone, and an underscore-prefixed
    result contributes no line. -/
theorem C6_underscore_filter (cfg : GenConfig) (files : List String) :
    package_lines cfg files
      = package_lines cfg (files.filter (fun f => !(starts_with (basename f) "_"))) ∧
    ∀ f, starts_with (basename f) "_" = true → process_file cfg f = [] := by
  constructor
  · unfold package_lines
    induction files with
    | nil => rfl
    | cons f fs ih =>
      by_cases h : starts_with (basename f) "_"
      · rw [List.filter_cons, if_neg (by simp [h])]
        simp only [List.foldl_cons]
        rw [process_file_underscore cfg h]
        simpa using ih
      · rw [List.filter_cons, if_pos (by simp [h])]
        simp only [List.foldl_cons]
        rw [package_lines_foldl cfg fs, package_lines_foldl cfg
          (fs.filter (fun f => !(starts_with (basename f) "_")))]
        rw [ih]
  · exact fun f h => process_file_underscore cfg h

/-- Witness for claim C6 at the underscore-prefixed candidate `_x.ts`. -/
theorem C6_underscore_filter_witness :
    starts_with (basename "_x.ts") "_" = true ∧
    process_file ⟨"/p/src", "/p/src", true⟩ "_x.ts" = [] :=
  ⟨by decide, (C6_underscore_filter ⟨"/p/src", "/p/src", true⟩ []).2 "_x.ts" (by decide)⟩

/-- Claim C7: with `types_only` set, the effective include-pattern list
    passed to the matcher is exactly the single pattern `**/types.ts`,
    whatever include patterns were configured; consequently, in the run of
    scenario B (files `types.ts` and `other.ts` under the scan directory),
    only the `types.ts` export line is produced. -/
theorem C7_types_only_override :
    (∀ include_glob : List String, effective_include true include_glob = ["**/types.ts"]) ∧
    package_lines ⟨"/p/src", "/p/src", true⟩ (match_types_only ["types.ts", "other.ts"])
      = ["export * from \"./types.js\""] := by
  refine ⟨fun _ => rfl, by decide⟩

/-- Pushing one exclusion glob per entry is mapping over the entries. -/
theorem foldl_push_eq_map (dir_skip : List String) (acc : List String) :
    dir_skip.foldl (fun acc d => acc ++ [skip_glob d]) acc
      = acc ++ dir_skip.map skip_glob := by
  induction dir_skip generalizing acc with
  | nil => simp
  | cons d ds ih =>
    simp only [List.foldl_cons, List.map_cons]
    rw [ih (acc ++ [skip_glob d])]
    simp [List.append_assoc]

/-- Claim C8: for every configuration, the effective exclude-pattern list
    is the configured exclude patterns, plus `**/bin/**` appended exactly
    when `include_bin` is false, plus one entry per `skip_dirs` element:
    the element verbatim when it contains wildcard syntax, otherwise
    `**/<entry>/**`. -/
theorem C8_effective_exclude (ignore_glob : List String) (include_bin : Bool)
    (dir_skip : List String) :
    effective_ignore ignore_glob include_bin dir_skip
      = effective_exclude_spec ignore_glob include_bin dir_skip := by
  unfold effective_ignore effective_exclude_spec
  rw [foldl_push_eq_map]
  rw [show (fun d => if has_wildcard d then d else "**/" ++ d ++ "/**") = skip_glob from
    funext (fun d => rfl)]
  cases include_bin <;> simp [List.append_assoc]

/-- Claim C2 counterexample: with an output directory `out` that exists
    while `out/index.ts` does not, the run fails at the `paths_assert` of
    main.ts line 95 before any write happens — a missing output file is an
    error condition for the run, and the file is not created. -/
theorem C2_counterexample :
    (fun p => p == "out") "out/index.ts" = false ∧
    resolve_export_path (fun p => p == "out") "out"
      = Except.error "Path not found: out/index.ts" := by
  refine ⟨by decide, by rfl⟩

/-- Claim C2 as amended: the write primitive itself (`writeFileSync` via
    `fs_write`) creates or truncates unconditionally, but the run first
    asserts that `out_dir/index.ts` already exists: resolution of the
    output path returns it only when the oracle says it exists, and
    otherwise aborts with `Path not found`, so a missing output file is an
    error condition for the run. -/
theorem C2_output_path_asserted (ex : String → Bool) (out_path : String) :
    resolve_export_path ex out_path
      = (if ex (out_path ++ "/" ++ "index.ts")
          then Except.ok (out_path ++ "/" ++ "index.ts")
          else Except.error ("Path not found: " ++ (out_path ++ "/" ++ "index.ts"))) ∧
    ∀ (fs : String → Option String) (contents : String),
      fs_write fs (out_path ++ "/" ++ "index.ts") contents (out_path ++ "/" ++ "index.ts")
        = some contents ∧
      ∀ q, q ≠ out_path ++ "/" ++ "index.ts" →
        fs_write fs (out_path ++ "/" ++ "index.ts") contents q = fs q := by
  refine ⟨rfl, fun fs contents => ⟨?_, fun q hq => ?_⟩⟩
  · unfold fs_write
    rw [if_pos rfl]
  · unfold fs_write
    rw [if_neg hq]

/-- Witness for claim C2: a concrete overwrite beside an untouched path. -/
theorem C2_output_path_asserted_witness :
    resolve_export_path (fun p => p == "out/index.ts") "out"
      = (if (fun p => p == "out/index.ts") ("out" ++ "/" ++ "index.ts")
          then Except.ok ("out" ++ "/" ++ "index.ts")
          else Except.error ("Path not found: " ++ ("out" ++ "/" ++ "index.ts"))) ∧
    fs_write (fun _ => none) ("out" ++ "/" ++ "index.ts") "body" ("out" ++ "/" ++ "index.ts")
      = some "body" ∧
    "other" ≠ "out" ++ "/" ++ "index.ts" ∧
    fs_write (fun _ => none) ("out" ++ "/" ++ "index.ts") "body" "other"
      = (fun _ => (none : Option String)) "other" :=
  ⟨(C2_output_path_asserted (fun p => p == "out/index.ts") "out").1,
    ((C2_output_path_asserted (fun p => p == "out/index.ts") "out").2
      (fun _ => none) "body").1,
    by decide,
    ((C2_output_path_asserted (fun p => p == "out/index.ts") "out").2
      (fun _ => none) "body").2 "other" (by decide)⟩

end PackagesDev
